import Mathlib

/-!
Verification development for the firefish partitioned feed-retrieval core.

The definitions below are a shallow embedding of the TypeScript sources:
  - packages/backend/src/misc/check-word-mute.ts (word-mute predicate),
  - the scylla module (filter chain, preparePaginationQuery, execPaginationQuery),
  - packages/backend/src/misc/cache.ts (Cache, SetCache and subclasses),
  - packages/backend/src/server/api/endpoints/notes/timeline.ts (home timeline).
Timestamps are epoch milliseconds as Nat (UTC day boundaries); JavaScript
strings are Lean Strings; optional/nullable values are Option; asynchronous
functions are embedded by their resolved values except where the source
manipulates the promise object itself, which is embedded by JsPromise below.
-/

namespace Firefish

/-- A drive file as carried by a ScyllaDB note row; only the fields read by
the embedded code (the attachment caption) are kept alongside the id. -/
structure ScyllaDriveFile where
  id : String
  comment : Option String
  deriving Repr, DecidableEq

/-- The ScyllaNote row shape from the scylla module (parseScyllaNote):
a content row with the denormalized reply/renote text fields.  `createdAt`
is epoch milliseconds; `visibility` keeps the source's string encoding
("public" | "home" | "followers" | "specified" | "hidden"). -/
structure ScyllaNote where
  id : String
  createdAt : Nat
  userId : String
  userHost : Option String
  visibility : String
  text : Option String
  cw : Option String
  files : List ScyllaDriveFile
  replyId : Option String
  replyUserId : Option String
  replyUserHost : Option String
  replyText : Option String
  replyCw : Option String
  replyFiles : List ScyllaDriveFile
  renoteId : Option String
  renoteUserId : Option String
  renoteUserHost : Option String
  renoteText : Option String
  renoteCw : Option String
  renoteFiles : List ScyllaDriveFile
  visibleUserIds : List String
  mentions : List String
  channelId : Option String
  hasPoll : Bool
  deriving Repr, DecidableEq

/-- A baseline note value; concrete test rows are built from it with `with`. -/
def baseNote : ScyllaNote where
  id := ""
  createdAt := 0
  userId := ""
  userHost := none
  visibility := "public"
  text := none
  cw := none
  files := []
  replyId := none
  replyUserId := none
  replyUserHost := none
  replyText := none
  replyCw := none
  replyFiles := []
  renoteId := none
  renoteUserId := none
  renoteUserHost := none
  renoteText := none
  renoteCw := none
  renoteFiles := []
  visibleUserIds := []
  mentions := []
  channelId := none
  hasPoll := false

/-! ### Word mute (check-word-mute.ts) -/

/-- One entry of a user's muted-words list: JavaScript `string[] | string`,
discriminated in the source by Array.isArray.  `arr` is a literal keyword
set, `str` a `/body/flags` regex encoding. -/
inductive MutePattern where
  | arr (keywords : List String) : MutePattern
  | str (s : String) : MutePattern
  deriving Repr, DecidableEq

/-- Char-level prefix test used to embed JavaScript substring search. -/
def listStarts : List Char → List Char → Bool
  | [], _ => true
  | _ :: _, [] => false
  | c :: cs, h :: hs => c == h && listStarts cs hs

/-- Contiguous-substring test over char lists, as JS String.prototype.includes. -/
def listSub (needle : List Char) : List Char → Bool
  | [] => needle.isEmpty
  | h :: hs => listStarts needle (h :: hs) || listSub needle hs

/-- JavaScript toLowerCase, embedded per character (the inputs of interest
are ASCII, where Char.toLower agrees with JS). -/
def lowerChars (cs : List Char) : List Char := cs.map Char.toLower

/-- A whitespace character removed by String.prototype.trim (the ASCII
whitespace; JS also trims rarer Unicode space characters, which do not
occur in the texts of interest). -/
def isTrimmable (c : Char) : Bool := c = ' ' ∨ c = '\t' ∨ c = '\n' ∨ c = '\r'

/-- String.prototype.trim over the char list: drop whitespace from both ends. -/
def trimChars (cs : List Char) : List Char :=
  ((cs.dropWhile isTrimmable).reverse.dropWhile isTrimmable).reverse

/-- String.prototype.trim. -/
def jsTrim (s : String) : String := String.mk (trimChars s.data)

/-- Array.prototype.join with a separator. -/
def jsJoin (sep : String) : List String → String
  | [] => ""
  | [s] => s
  | s :: rest => s ++ sep ++ jsJoin sep rest

/-- `hay.toLowerCase().includes(needle.toLowerCase())`. -/
def containsCI (hay needle : String) : Bool :=
  listSub (lowerChars needle.data) (lowerChars hay.data)

/-- Splits a char list at its last '/' occurrence: returns the part before
the last slash and the part after it, or none if there is no slash. -/
def splitAtLastSlash : List Char → Option (List Char × List Char)
  | [] => none
  | c :: cs =>
    match splitAtLastSlash cs with
    | some (b, f) => some (c :: b, f)
    | none => if c == '/' then some ([], cs) else none

/-- The source's `mutePattern.match(/^\/(.+)\/(.*)$/)`: group 1 is the
(greedy, nonempty) body between the leading slash and the last slash,
group 2 the trailing flags.  Embedded for newline-free pattern strings
(the JS `.` does not cross newlines). -/
def parseSlashPattern (s : String) : Option (String × String) :=
  match s.data with
  | '/' :: rest =>
    match splitAtLastSlash rest with
    | some (body, flags) =>
      if body.isEmpty then none else some (String.mk body, String.mk flags)
    | none => none
  | _ => none

/-- Modelled from the spec: the RE2 regular-expression engine is an external
library, not part of this repository.  The spec says a regex pattern matches
via standard regex semantics; this model covers pattern bodies made only of
literal characters (no regex metacharacters), for which standard semantics
is substring search, case-insensitive when the flags contain i. -/
def re2Test (body flags text : String) : Bool :=
  if flags.data.contains 'i' then containsCI text body
  else listSub body.data text.data

/-- `text.toLowerCase().includes(keyword.toLowerCase())` from the literal
branch of checkWordMute. -/
def keywordHit (text keyword : String) : Bool := containsCI text keyword

/-- The literal branch of checkWordMute's pattern loop: drop empty keywords,
then require at least one keyword and that every keyword is a
case-insensitive substring of the text. -/
def literalHit (text : String) (keywords : List String) : Bool :=
  decide ((keywords.filter (fun keyword => keyword ≠ "")).length > 0) &&
    (keywords.filter (fun keyword => keyword ≠ "")).all (keywordHit text)

/-- The regex branch of checkWordMute's pattern loop: a pattern that does not
match `/^\/(.+)\/(.*)$/` is skipped (treated as non-matching), otherwise the
body/flags are handed to the RE2 engine. -/
def regexHit (text pat : String) : Bool :=
  match parseSlashPattern pat with
  | none => false
  | some (body, flags) => re2Test body flags text

/-- One iteration of checkWordMute's `for (const mutePattern of mutedWords)`
loop, which early-returns true on a hit. -/
def patternHit (text : String) : MutePattern → Bool
  | .arr ks => literalHit text ks
  | .str p => regexHit text p

/-- The concatenated text checkWordMute builds before matching: cw, text and
attachment captions, and — when the scylla client is configured — the
denormalized reply/renote cw, text and captions; finally trimmed. -/
def muteText (scylla : Bool) (n : ScyllaNote) : String :=
  let t0 := (n.cw.getD "") ++ " " ++ (n.text.getD "")
  let t1 :=
    if n.files.length > 0 then
      t0 ++ " " ++ jsJoin " " (n.files.map (fun f => f.comment.getD ""))
    else t0
  let t2 :=
    if scylla then
      let ta := t1 ++ (n.replyCw.getD "") ++ " " ++ (n.replyText.getD "") ++ " " ++
        (n.renoteCw.getD "") ++ " " ++ (n.renoteText.getD "")
      let tb :=
        if n.replyFiles.length > 0 then
          ta ++ " " ++ jsJoin " " (n.replyFiles.map (fun f => f.comment.getD ""))
        else ta
      if n.renoteFiles.length > 0 then
        tb ++ " " ++ jsJoin " " (n.renoteFiles.map (fun f => f.comment.getD ""))
      else tb
    else t1
  jsTrim t2

/-- checkWordMute from check-word-mute.ts: build the concatenated text,
return false when it is empty, otherwise scan the patterns (the source's
early-return loop is embedded as List.any over patternHit). -/
def checkWordMute (scylla : Bool) (n : ScyllaNote) (mutedWords : List MutePattern) : Bool :=
  if muteText scylla n = "" then false
  else mutedWords.any (patternHit (muteText scylla n))

/-- A JavaScript promise object, embedded with its resolved value. -/
structure JsPromise (α : Type) where
  val : α
  deriving Repr, DecidableEq

/-- Every JavaScript object, a pending Promise included, is truthy. -/
def JsPromise.asJsBool {α : Type} (_p : JsPromise α) : Bool := true

/-- getWordHardMute from check-word-mute.ts, embedded for the
partitioned-store deployment (scyllaClient non-null; the relational branch
additionally re-checks the reply/renote entities, which the scylla row
denormalizes instead).  The function is async in the source, so it returns
a promise of the computed boolean. -/
def getWordHardMute (note : ScyllaNote) (meId : Option String)
    (mutedWords : Option (List MutePattern)) : JsPromise Bool :=
  ⟨if meId = some note.userId ∨ mutedWords = none then false
   else
     let mw := mutedWords.getD []
     if mw.length > 0 then checkWordMute true note mw
     else false⟩

/-- filterMutedNote from the scylla module.  Two slips of the source are
embedded faithfully: (a) the call getWordHardMute(note, user, mutedWords)
passes the user object where getWordHardMute expects a string meId, so the
strict equality note.userId === meId can never hold — embedded as
meId = none; (b) getWordHardMute is async and the filter predicate negates
the returned Promise object, which is truthy, so the predicate is
constantly false. -/
def filterMutedNote (notes : List ScyllaNote) (_user : String)
    (mutedWords : List MutePattern) : List ScyllaNote :=
  if mutedWords.length > 0 then
    notes.filter (fun note => !(getWordHardMute note none (some mutedWords)).asJsBool)
  else notes

/-- Concrete row whose text matches no pattern of `[["x"]]`. -/
def benignNote : ScyllaNote := { baseNote with userId := "author1", text := some "hello world" }

/-- Concrete row with text "foo only" (word-mute scenario). -/
def fooOnlyNote : ScyllaNote := { baseNote with userId := "author1", text := some "foo only" }

/-- Concrete row with text "FOO bar" (word-mute scenario). -/
def fooBarNote : ScyllaNote := { baseNote with userId := "author1", text := some "FOO bar" }

/-! ### Visibility filter (scylla module) -/

/-- filterVisibility from the scylla module.  The viewer is embedded by its
id (the source receives `{ id } | null`).  For an anonymous viewer only
public/home rows survive; for an authenticated viewer the source's
disjunction is kept verbatim. -/
def filterVisibility (notes : List ScyllaNote) (user : Option String)
    (followingIds : List String) : List ScyllaNote :=
  match user with
  | none =>
    notes.filter (fun note => note.visibility == "public" || note.visibility == "home")
  | some uid =>
    notes.filter (fun note =>
      (note.visibility == "public" || note.visibility == "home") ||
      note.userId == uid ||
      note.visibleUserIds.contains uid ||
      note.mentions.contains uid ||
      (note.visibility == "followers" &&
        (followingIds.contains note.userId || note.replyUserId == some uid)))

/-- Claim-side visibility predicate, phrased scope by scope the way the
claim states it, amended with the two extra passes the code grants: a
followers row also passes for an explicitly listed visible-user, and a
specified row also passes for an explicit mention target. -/
def visibilityPassSpec (uid : String) (followingIds : List String) (n : ScyllaNote) : Bool :=
  if n.visibility = "public" ∨ n.visibility = "home" then true
  else if n.visibility = "followers" then
    n.userId == uid || followingIds.contains n.userId || n.replyUserId == some uid ||
      n.mentions.contains uid || n.visibleUserIds.contains uid
  else if n.visibility = "specified" then
    n.userId == uid || n.visibleUserIds.contains uid || n.mentions.contains uid
  else false

/-- A specified-scoped row that mentions the viewer without listing them
among the visible users, and is not authored by the viewer. -/
def specifiedMentionNote : ScyllaNote :=
  { baseNote with visibility := "specified", userId := "author1", mentions := ["viewer1"] }

/-! ### Membership cache (cache.ts, SetCache) -/

/-- The redis state owned by one SetCache instance: the member set stored
under `setcache:<name>:<userId>` (kept as an insertion-ordered list) and
whether the `...:fetched` freshness marker currently exists. -/
structure SetCacheState where
  members : List String
  fresh : Bool
  deriving Repr, DecidableEq

/-- Redis SADD of several ids: appends each id not already present. -/
def saddAll (members : List String) (ids : List String) : List String :=
  ids.foldl (fun acc id => if acc.contains id then acc else acc ++ [id]) members

/-- SetCache.hasFollowing: `scard(key) !== 0`. -/
def SetCache.hasFollowing (st : SetCacheState) : Bool := st.members.length ≠ 0

/-- SetCache.follow: SADD the target ids; no-op for an empty argument list. -/
def SetCache.follow (st : SetCacheState) (targetIds : List String) : SetCacheState :=
  if targetIds.length > 0 then { st with members := saddAll st.members targetIds } else st

/-- SetCache.fetch (the sync operation run by LocalFollowingsCache.init and
ChannelFollowingsCache.init): when the set has no members or the freshness
marker is absent, delete the set, re-add the fetcher's result and set the
marker (30-minute TTL); otherwise do nothing.  `fetcherResult` is the list
the injected producer resolves to. -/
def SetCache.fetch (st : SetCacheState) (fetcherResult : List String) : SetCacheState :=
  if !SetCache.hasFollowing st || !st.fresh then
    let cleared : SetCacheState := { st with members := [] }
    let loaded := SetCache.follow cleared fetcherResult
    { loaded with fresh := true }
  else st

/-! ### Keyed cache getAll (cache.ts, Cache) -/

/-- Cache.prefixedKey: `key ? prefix + ":" + key : prefix` with
prefix = `cache:<name>`. -/
def prefixedKey (pre : String) (key : Option String) : String :=
  match key with
  | some k => pre ++ ":" ++ k
  | none => pre

/-- The namespace prefix `cache:<name>` a Cache instance is constructed with. -/
def cacheKeyBase (name : String) : String := "cache:" ++ name

/-- Redis KEYS with the glob `<pre>*`: all live keys that start with `pre`.
The store is the list of currently live (unexpired) redis entries; redis
drops expired entries, so liveness is modelled by presence. -/
def redisKeysMatching {V : Type} (store : List (String × V)) (pre : String) : List String :=
  (store.map Prod.fst).filter (fun k => listStarts pre.data k.data)

/-- Cache.getAll: KEYS `<prefix>*`, then MGET, skipping null values (all
present here since the keys were just listed), building the key-to-value
mapping with the full redis keys. -/
def Cache.getAll {V : Type} (store : List (String × V)) (name : String) : List (String × V) :=
  let keys := redisKeysMatching store (cacheKeyBase name)
  keys.filterMap (fun k => (store.lookup k).map (fun v => (k, v)))

/-- A store holding one entry written under the namespace "userX" via
`Cache.set` (key "k"), and nothing else. -/
def demoCacheStore : List (String × Nat) := [(prefixedKey (cacheKeyBase "userX") (some "k"), 7)]

/-! ### Pagination query selection (scylla module, preparePaginationQuery) -/

/-- The prepared range-scan templates of cql.js, one per feed kind; the
template text itself lives outside this repository's sources, so the
structure only carries the opaque strings preparePaginationQuery selects
among. -/
structure PreparedTemplates where
  homeByUserAndDate : String
  localByDate : String
  globalByDate : String
  noteByRenoteId : String
  noteByUserId : String
  noteByChannelId : String
  notificationByTargetId : String
  reactionByUserId : String
  noteByDate : String
  deriving Repr, DecidableEq

/-- The switch at the head of preparePaginationQuery: each feed kind maps to
exactly one prepared scan template (the default branch uses the by-date
note template). -/
def selectTemplate (tpl : PreparedTemplates) (kind : String) : String :=
  if kind = "home" then tpl.homeByUserAndDate
  else if kind = "local" then tpl.localByDate
  else if kind = "recommended" ∨ kind = "global" then tpl.globalByDate
  else if kind = "renotes" then tpl.noteByRenoteId
  else if kind = "user" ∨ kind = "list" then tpl.noteByUserId
  else if kind = "channel" then tpl.noteByChannelId
  else if kind = "notification" then tpl.notificationByTargetId
  else if kind = "reaction" then tpl.reactionByUserId
  else tpl.noteByDate

/-- The pagination request descriptor handed to the scylla query layer. -/
structure PaginationPs where
  limit : Nat
  untilId : Option String
  untilDate : Option Nat
  sinceId : Option String
  sinceDate : Option Nat
  noteId : Option String
  channelId : Option String
  userIds : Option (List String)
  deriving Repr, DecidableEq

/-- A descriptor with no bounds and no scoping ids. -/
def emptyPs : PaginationPs where
  limit := 10
  untilId := none
  untilDate := none
  sinceId := none
  sinceDate := none
  noteId := none
  channelId := none
  userIds := none

/-- The value preparePaginationQuery returns: the assembled query text and
the resolved effective bounds. -/
structure PreparedPagination where
  query : String
  untilDate : Nat
  sinceDate : Option Nat
  deriving Repr, DecidableEq

/-- preparePaginationQuery from the scylla module.  `tsOf` is the
getTimestamp id decoder (gen-id.js, outside these sources), `now` the
current wall clock.  JavaScript truthiness of the optional inputs is kept:
an empty-string id and a zero timestamp are falsy and therefore ignored. -/
def preparePaginationQuery (tpl : PreparedTemplates) (tsOf : String → Nat) (now : Nat)
    (kind : String) (ps : PaginationPs) : PreparedPagination :=
  let q1 := selectTemplate tpl kind ++ " " ++ "AND \"createdAt\" < ?"
  let until0 : Nat :=
    match ps.untilId with
    | some i => if i ≠ "" then tsOf i else now
    | none => now
  let until1 : Nat :=
    match ps.untilDate with
    | some d => if d ≠ 0 ∧ d < until0 then d else until0
    | none => until0
  let since0 : Option Nat :=
    match ps.sinceId with
    | some i => if i ≠ "" then some (tsOf i) else none
    | none => none
  let since1 : Option Nat :=
    match ps.sinceDate with
    | some d =>
      match since0 with
      | none => if d ≠ 0 then some d else none
      | some s => if d ≠ 0 ∧ d > s then some d else some s
    | none => since0
  let q2 := if since1.isSome then q1 ++ " " ++ "AND \"createdAt\" > ?" else q1
  { query := q2 ++ " " ++ "LIMIT ?", untilDate := until1, sinceDate := since1 }

/-- Claim-side resolution of the effective until bound, written the way the
claim states it: the decoded untilId timestamp when given (now otherwise),
replaced by the explicit untilDate when that is earlier. -/
def resolvedUntilSpec (tsOf : String → Nat) (now : Nat)
    (untilId : Option String) (untilDate : Option Nat) : Nat :=
  let base := match untilId with | some i => tsOf i | none => now
  match untilDate with
  | some d => if d < base then d else base
  | none => base

/-- Claim-side resolution of the since bound: absent when neither input is
given, otherwise the later of the decoded sinceId timestamp and the
explicit sinceDate. -/
def resolvedSinceSpec (tsOf : String → Nat)
    (sinceId : Option String) (sinceDate : Option Nat) : Option Nat :=
  match sinceId, sinceDate with
  | none, none => none
  | some i, none => some (tsOf i)
  | none, some d => some d
  | some i, some d => some (max (tsOf i) d)

/-! ### Cross-partition scanner (scylla module, execPaginationQuery) -/

/-- One bound value pushed onto the prepared statement's parameter array. -/
inductive ScanParam where
  | str (s : String) : ScanParam
  | date (t : Nat) : ScanParam
  | num (n : Nat) : ScanParam
  deriving Repr, DecidableEq

/-- The scanner's per-request state: the mutable untilDate cursor, the
partition budget already spent, the accumulated survivors, the (mutated)
ps.userIds array of the list kind, and — as observable ghost state for the
theorems — the fetch limits of the scans issued so far. -/
structure ExecState (R : Type) where
  untilDate : Nat
  scanned : Nat
  found : List R
  userIds : Option (List String)
  fetchLimits : List Nat
  deriving Repr, DecidableEq

/-- The partition-exhaustion cursor jump: one day back, then
setHours(23, 59, 59, 990) — embedded with UTC day boundaries. -/
def dayJump (t : Nat) : Nat :=
  let yesterday := t - 86400000
  yesterday / 86400000 * 86400000 + 86399990

/-- The if/else-if parameter-building chain at the top of the scan loop.
Returns the parameter array and the (possibly popped) userIds array, or
none exactly when the list branch pops undefined off an exhausted userIds
array, which breaks the loop.  A branch whose kind matches but whose
scoping id is absent falls through to the final else, as the JS
short-circuit conjunction does. -/
def buildScanParams (kind : String) (userId noteId channelId : Option String)
    (userIds : Option (List String)) (untilD : Nat) :
    Option (List ScanParam × Option (List String)) :=
  let fallback : List ScanParam := [ScanParam.date untilD, ScanParam.date untilD]
  if kind = "home" then
    match userId with
    | some u => some ([ScanParam.str u, ScanParam.date untilD, ScanParam.date untilD], userIds)
    | none => some (fallback, userIds)
  else if kind = "user" ∨ kind = "reaction" then
    match userId with
    | some u => some ([ScanParam.str u, ScanParam.date untilD], userIds)
    | none => some (fallback, userIds)
  else if kind = "renotes" then
    match noteId with
    | some nid => some ([ScanParam.str nid, ScanParam.date untilD], userIds)
    | none => some (fallback, userIds)
  else if kind = "channel" then
    match channelId with
    | some cid => some ([ScanParam.str cid, ScanParam.date untilD], userIds)
    | none => some (fallback, userIds)
  else if kind = "notification" then
    match userId with
    | some u => some ([ScanParam.str u, ScanParam.date untilD, ScanParam.date untilD], userIds)
    | none => some (fallback, userIds)
  else if kind = "list" then
    match userIds with
    | some l =>
      match l.getLast? with
      | some targetId => some ([ScanParam.str targetId, ScanParam.date untilD], some l.dropLast)
      | none => none
    | none => some (fallback, none)
  else some (fallback, userIds)

/-- Applies the optional batch filter the caller supplied (the filter chain),
as `filter?.note ? filter.note(notes) : notes`. -/
def applyBatchFilter {R : Type} (filterFn : Option (List R → List R)) (rows : List R) : List R :=
  match filterFn with
  | some f => f rows
  | none => rows

/-- One iteration of execPaginationQuery's while loop, including the loop
guard: returns (continue?, new state).  The three result branches of the
source (note / notification / reaction) differ only in row parsing and
casts, so the loop is embedded once, polymorphic in the row type, with
`createdAtOf` reading the row timestamp and `store` standing for the
prepared-statement execution (the bounded range scan). -/
def execStep {R : Type} (store : List ScanParam → List R) (createdAtOf : R → Nat)
    (filterFn : Option (List R → List R)) (kind : String)
    (userId noteId channelId : Option String)
    (psLimit queryLimit foundLimit maxPartitions : Nat) (sinceDate : Option Nat)
    (st : ExecState R) : Bool × ExecState R :=
  if st.found.length < foundLimit ∧ st.scanned < maxPartitions then
    match buildScanParams kind userId noteId channelId st.userIds st.untilDate with
    | none => (false, st)
    | some (params0, userIds1) =>
      let params1 :=
        match sinceDate with
        | some s => params0 ++ [ScanParam.date s]
        | none => params0
      let fetchLimit := if kind = "list" then min psLimit queryLimit else queryLimit
      let rows := store (params1 ++ [ScanParam.num fetchLimit])
      let st1 : ExecState R :=
        { untilDate :=
            match rows.getLast? with
            | some r => createdAtOf r
            | none => st.untilDate
          scanned := st.scanned
          found := if rows.length > 0 then st.found ++ applyBatchFilter filterFn rows else st.found
          userIds := userIds1
          fetchLimits := st.fetchLimits ++ [fetchLimit] }
      if rows.length < fetchLimit then
        let st2 : ExecState R :=
          { st1 with scanned := st1.scanned + 1, untilDate := dayJump st1.untilDate }
        match sinceDate with
        | some s => if st2.untilDate < s then (false, st2) else (true, st2)
        | none => (true, st2)
      else (true, st1)
  else (false, st)

/-- execPaginationQuery's while loop, fuel-indexed (the source loop need not
terminate when the store keeps answering full batches that the filter chain
empties; every claim below is insensitive to the fuel). -/
def execLoop {R : Type} (store : List ScanParam → List R) (createdAtOf : R → Nat)
    (filterFn : Option (List R → List R)) (kind : String)
    (userId noteId channelId : Option String)
    (psLimit queryLimit foundLimit maxPartitions : Nat) (sinceDate : Option Nat) :
    Nat → ExecState R → ExecState R
  | 0, st => st
  | fuel + 1, st =>
    match execStep store createdAtOf filterFn kind userId noteId channelId
        psLimit queryLimit foundLimit maxPartitions sinceDate st with
    | (false, st2) => st2
    | (true, st2) =>
      execLoop store createdAtOf filterFn kind userId noteId channelId
        psLimit queryLimit foundLimit maxPartitions sinceDate fuel st2

/-- execPaginationQuery from the scylla module: validate the scoping ids of
the feed kind (throws are embedded as Except.error), resolve the bounds via
preparePaginationQuery, compute the target count (multiplied by the number
of list targets for the list kind), then run the scan loop from a fresh
cursor.  `queryLimit` is config.scylla.queryLimit (default 100) and
`maxPartitions` config.scylla.sparseTimelineDays (default 14). -/
def execPaginationQuery {R : Type} (store : List ScanParam → List R) (createdAtOf : R → Nat)
    (filterFn : Option (List R → List R)) (tpl : PreparedTemplates) (tsOf : String → Nat)
    (now : Nat) (kind : String) (ps : PaginationPs) (userId : Option String)
    (queryLimit maxPartitions fuel : Nat) : Except String (ExecState R) :=
  if (kind = "home" ∨ kind = "user" ∨ kind = "notification" ∨ kind = "reaction") ∧ userId = none then
    Except.error ("Feed " ++ kind ++ " needs userId")
  else if kind = "renotes" ∧ ps.noteId = none then
    Except.error ("Feed " ++ kind ++ " needs noteId")
  else if kind = "channel" ∧ ps.channelId = none then
    Except.error ("Feed " ++ kind ++ " needs channelId")
  else if kind = "list" ∧ (ps.userIds.getD []).isEmpty then
    Except.error ("Feed " ++ kind ++ " needs userIds")
  else
    let prep := preparePaginationQuery tpl tsOf now kind ps
    let foundLimit :=
      if kind = "list" ∧ ps.userIds.isSome then ps.limit * (ps.userIds.getD []).length
      else ps.limit
    Except.ok (execLoop store createdAtOf filterFn kind userId ps.noteId ps.channelId
      ps.limit queryLimit foundLimit maxPartitions prep.sinceDate fuel
      { untilDate := prep.untilDate, scanned := 0, found := [], userIds := ps.userIds,
        fetchLimits := [] })

/-- A concrete template set (the opaque prepared CQL text). -/
def tpl0 : PreparedTemplates where
  homeByUserAndDate := "SELECT home"
  localByDate := "SELECT local"
  globalByDate := "SELECT global"
  noteByRenoteId := "SELECT renotes"
  noteByUserId := "SELECT byUser"
  noteByChannelId := "SELECT byChannel"
  notificationByTargetId := "SELECT notification"
  reactionByUserId := "SELECT reaction"
  noteByDate := "SELECT byDate"

/-- An id decoder for concrete runs that never decode an id. -/
def tsZero : String → Nat := fun _ => 0

/-- Five matching rows living in day partition 19997 (day -3 of the sparse
scenario), in descending creation order. -/
def day3Notes : List ScyllaNote :=
  [{ baseNote with id := "n5", createdAt := 19997 * 86400000 + 5000 },
   { baseNote with id := "n4", createdAt := 19997 * 86400000 + 4000 },
   { baseNote with id := "n3", createdAt := 19997 * 86400000 + 3000 },
   { baseNote with id := "n2", createdAt := 19997 * 86400000 + 2000 },
   { baseNote with id := "n1", createdAt := 19997 * 86400000 + 1000 }]

/-- The sparse day-partitioned store of the scenario: a range scan returns
the rows whose partition day equals the day of the partition-key bound and
whose creation time is below the clustering bound, capped at the fetch
limit; all rows live on day 19997, so the two most recent partitions (days
20000 and 19999) are empty. -/
def sparseStore (params : List ScanParam) : List ScyllaNote :=
  match params with
  | [ScanParam.date u1, ScanParam.date u2, ScanParam.num lim] =>
    (day3Notes.filter (fun n => n.createdAt / 86400000 = u1 / 86400000 ∧ n.createdAt < u2)).take lim
  | _ => []

/-- The wall clock of the sparse scenario: one second into day 20000. -/
def nowSparse : Nat := 20000 * 86400000 + 1000

/-- A store for the list-kind runs: always empty. -/
def emptyStore (_params : List ScanParam) : List ScyllaNote := []

/-! ### Home timeline endpoint (notes/timeline.ts) -/

/-- The scylla-path accumulation loop of the home-timeline endpoint:
while fewer packed rows than ps.limit, run execPaginationQuery (embedded as
the oracle `execOracle`, a function of the — mutated — descriptor), slice
the batch to 1.5 times the limit, pack it (oracle `packManyFn`, which may
drop rows), stop when the batch was short, otherwise move ps.untilDate to
the last row's creation time.  Fuel-indexed like the source's unbounded
while loop. -/
def scyllaHomeLoop {β : Type} (execOracle : PaginationPs → List ScyllaNote)
    (packManyFn : List ScyllaNote → List β) :
    Nat → PaginationPs → List β → List β
  | 0, _, foundPacked => foundPacked
  | fuel + 1, ps, foundPacked =>
    if foundPacked.length < ps.limit then
      let foundNotes := (execOracle ps).take (ps.limit * 3 / 2)
      let foundPacked2 := foundPacked ++ packManyFn foundNotes
      if foundNotes.length < ps.limit then foundPacked2
      else
        match foundNotes.getLast? with
        | some n => scyllaHomeLoop execOracle packManyFn fuel
            { ps with untilDate := some n.createdAt } foundPacked2
        | none => scyllaHomeLoop execOracle packManyFn fuel ps foundPacked2
    else foundPacked

/-- The scylla path of the home-timeline endpoint: run the accumulation loop
from an empty page, then return `foundPacked.slice(0, ps.limit)`. -/
def scyllaHomeTimeline {β : Type} (execOracle : PaginationPs → List ScyllaNote)
    (packManyFn : List ScyllaNote → List β) (fuel : Nat) (ps : PaginationPs) : List β :=
  (scyllaHomeLoop execOracle packManyFn fuel ps []).take ps.limit

/-- The relational-path accumulation loop: page through the SQL query with
take/skip (oracle `queryFn`), packing each page, until a short page or
enough rows. -/
def relationalLoop {ρ β : Type} (queryFn : Nat → Nat → List ρ) (packManyFn : List ρ → List β)
    (limit takeN : Nat) : Nat → Nat → List β → List β
  | 0, _, found => found
  | fuel + 1, skip, found =>
    if found.length < limit then
      let notes := queryFn takeN skip
      let found2 := found ++ packManyFn notes
      if notes.length < takeN then found2
      else relationalLoop queryFn packManyFn limit takeN fuel (skip + takeN) found2
    else found

/-- The relational fallback path of the home-timeline endpoint:
take = floor(ps.limit * 1.5), page from skip 0, then truncate
(`found.length = ps.limit`) when more than ps.limit rows accumulated. -/
def relationalHomeTimeline {ρ β : Type} (queryFn : Nat → Nat → List ρ)
    (packManyFn : List ρ → List β) (fuel limit : Nat) : List β :=
  let takeN := limit * 3 / 2
  let found := relationalLoop queryFn packManyFn limit takeN fuel 0 []
  if found.length > limit then found.take limit else found

/-- Length of an optional id array, an absent array counting as empty
(used to observe the mutation of ps.userIds). -/
def optListLen (o : Option (List String)) : Nat := (o.getD []).length

/-- A concrete descriptor with an untilId, an earlier explicit untilDate
and an explicit sinceDate. -/
def boundsPs : PaginationPs :=
  { emptyPs with untilId := some "u", untilDate := some 300, sinceDate := some 100 }

/-! ## Theorems -/

/-- A nonempty char list stays nonempty under per-char lowercasing. -/
theorem lowerChars_ne_nil {cs : List Char} (h : cs ≠ []) : lowerChars cs ≠ [] := by
  cases cs with
  | nil => exact absurd rfl h
  | cons c t => simp [lowerChars]

/-- No nonempty keyword is a substring of the empty text. -/
theorem keywordHit_empty (k : String) (hk : k ≠ "") : keywordHit "" k = false := by
  cases k with
  | mk data =>
    cases data with
    | nil => simp at hk
    | cons c cs => rfl

/-- A successfully parsed `/body/flags` pattern has a nonempty body. -/
theorem parseSlashPattern_body_ne (s body flags : String)
    (h : parseSlashPattern s = some (body, flags)) : body.data ≠ [] := by
  unfold parseSlashPattern at h
  split at h
  case h_2 => exact absurd h (by simp)
  case h_1 c rest heq =>
    split at h
    case h_2 => exact absurd h (by simp)
    case h_1 b f heq2 =>
      split at h
      case isTrue => exact absurd h (by simp)
      case isFalse hni =>
        cases h
        simpa [List.isEmpty_iff] using hni

/-- No mute pattern matches the empty concatenated text: a literal pattern
needs a nonempty keyword as substring, a regex pattern a nonempty body. -/
theorem patternHit_empty_text (p : MutePattern) : patternHit "" p = false := by
  cases p with
  | arr ks =>
    show literalHit "" ks = false
    unfold literalHit
    cases hks : ks.filter (fun keyword => keyword ≠ "") with
    | nil => rfl
    | cons k t =>
      have hkmem : k ∈ ks.filter (fun keyword => keyword ≠ "") := by
        rw [hks]; exact List.mem_cons_self k t
      have hk : k ≠ "" := by simpa using (List.mem_filter.mp hkmem).2
      rw [List.all_cons, keywordHit_empty k hk]
      simp
  | str pat =>
    show regexHit "" pat = false
    unfold regexHit
    cases hp : parseSlashPattern pat with
    | none => rfl
    | some bf =>
      obtain ⟨body, flags⟩ := bf
      have hb : body.data ≠ [] := parseSlashPattern_body_ne pat body flags hp
      show re2Test body flags "" = false
      unfold re2Test
      split
      · show listSub (lowerChars body.data) (lowerChars ("" : String).data) = false
        cases hd : body.data with
        | nil => exact absurd hd hb
        | cons c cs => rfl
      · show listSub body.data ("" : String).data = false
        cases hd : body.data with
        | nil => exact absurd hd hb
        | cons c cs => rfl

/-- C9: checkWordMute matches exactly when some configured pattern matches
the concatenated text — a literal keyword-set pattern requiring every
non-empty keyword as a case-insensitive substring, a `/body/flags` regex
pattern matching via the (modelled) regex engine, and a malformed regex
pattern (here the slash-less "foo") never matching; the literal pattern
["foo", "bar"] does not match "foo only", and /foo/i matches "FOO bar". -/
theorem checkWordMute_matches_iff_some_pattern :
    (∀ (scylla : Bool) (n : ScyllaNote) (pats : List MutePattern),
        checkWordMute scylla n pats = pats.any (patternHit (muteText scylla n)))
    ∧ checkWordMute true fooOnlyNote [MutePattern.arr ["foo", "bar"]] = false
    ∧ checkWordMute true fooBarNote [MutePattern.str "/foo/i"] = true
    ∧ checkWordMute true fooBarNote [MutePattern.str "foo"] = false := by
  refine ⟨?_, by decide, by decide, by decide⟩
  intro scylla n pats
  unfold checkWordMute
  split
  case isTrue h =>
    rw [h]
    symm
    exact List.any_eq_false.mpr (fun p _ => by simp [patternHit_empty_text p])
  case isFalse h => rfl

/-- C1: the word-mute filter step is broken in the source — getWordHardMute
is async and filterMutedNote negates the returned Promise object (always
truthy), so with a non-empty pattern set every row is dropped: here a row
whose text matches no pattern is removed even though the awaited word-mute
verdict for it is false. -/
theorem filterMutedNote_drops_unmuted_row :
    filterMutedNote [benignNote] "viewer1" [MutePattern.arr ["x"]] = []
    ∧ (getWordHardMute benignNote (some "viewer1") (some [MutePattern.arr ["x"]])).val = false
    ∧ filterMutedNote [benignNote] "viewer1" [] = [benignNote] := by decide

/-- C2 counterexample: a specified-scoped row that only mentions the viewer
— the viewer is neither the author nor listed in visibleUserIds — passes
filterVisibility, while the claim allows only the author and the listed
recipients through. -/
theorem filterVisibility_passes_specified_mention :
    filterVisibility [specifiedMentionNote] (some "viewer1") [] = [specifiedMentionNote]
    ∧ specifiedMentionNote.visibility = "specified"
    ∧ specifiedMentionNote.userId ≠ "viewer1"
    ∧ specifiedMentionNote.visibleUserIds.contains "viewer1" = false := by decide

/-- C2 (amended): for an anonymous viewer exactly the public/home rows pass;
for an authenticated viewer, a row passes according to its scope — public
and home always; followers for the author, a follower, the reply-target
author, a mention target, or a listed visible-user; specified for the
author, a listed recipient, or a mention target. -/
theorem filterVisibility_pass_characterization :
    ∀ (notes : List ScyllaNote) (uid : String) (fids : List String),
      (∀ n ∈ notes, n.visibility = "public" ∨ n.visibility = "home" ∨
          n.visibility = "followers" ∨ n.visibility = "specified") →
      filterVisibility notes (some uid) fids = notes.filter (visibilityPassSpec uid fids)
      ∧ filterVisibility notes none fids =
          notes.filter (fun n => n.visibility == "public" || n.visibility == "home") := by
  intro notes uid fids hv
  refine ⟨?_, rfl⟩
  unfold filterVisibility
  exact List.filter_congr (fun n hn => by
    rcases hv n hn with h | h | h | h <;>
      simp only [visibilityPassSpec, h] <;>
      simp only [String.reduceBEq, String.reduceEq, beq_self_eq_true, if_true, if_false,
        reduceIte] <;>
      cases n.userId == uid <;> cases fids.contains n.userId <;>
      cases n.replyUserId == some uid <;> cases n.mentions.contains uid <;>
      cases n.visibleUserIds.contains uid <;> rfl)

/-- Witness for the amended C2 characterization at a concrete batch. -/
theorem filterVisibility_pass_characterization_witness :
    filterVisibility [specifiedMentionNote, baseNote] (some "viewer1") [] =
        List.filter (visibilityPassSpec "viewer1" []) [specifiedMentionNote, baseNote]
    ∧ filterVisibility [specifiedMentionNote, baseNote] none [] =
        List.filter (fun n => n.visibility == "public" || n.visibility == "home")
          [specifiedMentionNote, baseNote] :=
  filterVisibility_pass_characterization [specifiedMentionNote, baseNote] "viewer1" []
    (by decide)

/-- C3 counterexample: with a non-empty (warm) member set but an absent
freshness marker, SetCache.fetch is not a no-op — it clears the set and
reloads it from the producer's result. -/
theorem setCache_fetch_reloads_despite_warm_set :
    SetCache.fetch ⟨["a"], false⟩ ["b"] = ⟨["b"], true⟩
    ∧ SetCache.fetch ⟨["a"], false⟩ ["b"] ≠ ⟨["a"], false⟩
    ∧ SetCache.hasFollowing ⟨["a"], false⟩ = true := by decide

/-- C3 (amended): SetCache.fetch reloads from the source of truth when the
cached set is empty OR the freshness marker is absent — clearing stale
members, writing the produced member list and setting the marker — and is
a no-op exactly when the set is non-empty AND the marker is present. -/
theorem setCache_fetch_noop_iff_warm_and_fresh :
    ∀ (st : SetCacheState) (fetched : List String),
      (st.members ≠ [] ∧ st.fresh = true → SetCache.fetch st fetched = st)
      ∧ (st.members = [] ∨ st.fresh = false →
          SetCache.fetch st fetched = { members := saddAll [] fetched, fresh := true }) := by
  intro st fetched
  constructor
  · rintro ⟨hm, hf⟩
    have hlen : st.members.length ≠ 0 := fun h0 => hm (List.length_eq_zero.mp h0)
    simp [SetCache.fetch, SetCache.hasFollowing, hf, hlen]
  · intro hcase
    have hcond : (!SetCache.hasFollowing st || !st.fresh) = true := by
      rcases hcase with hm | hf
      · simp [SetCache.hasFollowing, hm]
      · simp [hf]
    unfold SetCache.fetch
    rw [if_pos hcond]
    unfold SetCache.follow
    cases fetched with
    | nil => simp [saddAll]
    | cons a t => simp

/-- Witness for the amended C3 statement: a warm-and-fresh state is left
unchanged, an empty state is reloaded. -/
theorem setCache_fetch_noop_iff_warm_and_fresh_witness :
    SetCache.fetch ⟨["a"], true⟩ ["b"] = ⟨["a"], true⟩
    ∧ SetCache.fetch ⟨[], true⟩ ["b"] = { members := saddAll [] ["b"], fresh := true } :=
  ⟨(setCache_fetch_noop_iff_warm_and_fresh ⟨["a"], true⟩ ["b"]).1 ⟨by simp, rfl⟩,
   (setCache_fetch_noop_iff_warm_and_fresh ⟨[], true⟩ ["b"]).2 (Or.inl rfl)⟩

/-- Looking keys up in a store whose head key differs from every key in the
list is the same as looking them up in the tail. -/
theorem filterMap_lookup_cons_ne {V : Type} (k : String) (v : V) (rest : List (String × V))
    (ks : List String) (hne : ∀ x ∈ ks, x ≠ k) :
    ks.filterMap (fun x => (((k, v) :: rest).lookup x).map (fun w => (x, w))) =
      ks.filterMap (fun x => (rest.lookup x).map (fun w => (x, w))) := by
  induction ks with
  | nil => rfl
  | cons a t ih =>
    have ha : a ≠ k := hne a (List.mem_cons_self a t)
    have ht : ∀ x ∈ t, x ≠ k := fun x hx => hne x (List.mem_cons_of_mem a hx)
    have hl : ((k, v) :: rest).lookup a = rest.lookup a := by
      simp [List.lookup, beq_eq_false_iff_ne.mpr ha]
    rw [List.filterMap_cons, List.filterMap_cons, hl, ih ht]

/-- C8 counterexample: an entry written under the namespace "userX" (an
extension of "user") is returned by getAll of the namespace "user", while
the claim says entries of every other namespace — extensions included —
are excluded. -/
theorem cache_getAll_includes_extending_namespace :
    Cache.getAll demoCacheStore "user" = [(prefixedKey (cacheKeyBase "userX") (some "k"), 7)]
    ∧ ("userX" : String) ≠ "user" := by decide

/-- C8 (amended): over a store with distinct keys, getAll returns exactly
the live entries whose full key starts with the namespace prefix
`cache:<name>` — every entry of the namespace itself, none of a
prefix-disjoint namespace, but also the entries of any namespace whose
name extends this namespace's name. -/
theorem cache_getAll_eq_namespace_extension_filter :
    ∀ {V : Type} (store : List (String × V)) (name : String),
      (store.map Prod.fst).Nodup →
      Cache.getAll store name =
        store.filter (fun e => listStarts (cacheKeyBase name).data e.1.data) := by
  intro V store name hnd
  induction store with
  | nil => rfl
  | cons e rest ih =>
    obtain ⟨k, v⟩ := e
    rw [List.map_cons] at hnd
    obtain ⟨hk_not, hnd'⟩ := List.nodup_cons.mp hnd
    have hne : ∀ x ∈ (rest.map Prod.fst).filter
        (fun kk => listStarts (cacheKeyBase name).data kk.data), x ≠ k := by
      intro x hx hxk
      exact hk_not (hxk ▸ (List.mem_filter.mp hx).1)
    have htail :
        ((rest.map Prod.fst).filter (fun kk => listStarts (cacheKeyBase name).data kk.data)).filterMap
            (fun x => (((k, v) :: rest).lookup x).map (fun w => (x, w))) =
          rest.filter (fun e => listStarts (cacheKeyBase name).data e.1.data) := by
      rw [filterMap_lookup_cons_ne k v rest _ hne]
      exact ih hnd'
    show ((((k, v) :: rest).map Prod.fst).filter
        (fun kk => listStarts (cacheKeyBase name).data kk.data)).filterMap
        (fun x => (((k, v) :: rest).lookup x).map (fun w => (x, w))) =
      ((k, v) :: rest).filter (fun e => listStarts (cacheKeyBase name).data e.1.data)
    rw [List.map_cons, List.filter_cons, List.filter_cons]
    cases hp : listStarts (cacheKeyBase name).data k.data with
    | false => simpa [hp] using htail
    | true =>
      simp only [hp, if_true]
      rw [List.filterMap_cons]
      have hself : ((k, v) :: rest).lookup k = some v := by simp [List.lookup]
      rw [hself]
      simpa using congrArg (fun l => (k, v) :: l) htail

/-- Witness for the amended C8 statement on a concrete two-namespace store. -/
theorem cache_getAll_eq_namespace_extension_filter_witness :
    Cache.getAll [("cache:user:k", 3), ("cache:other:k", 4)] "user" =
      List.filter (fun e => listStarts (cacheKeyBase "user").data e.1.data)
        [("cache:user:k", 3), ("cache:other:k", 4)] :=
  cache_getAll_eq_namespace_extension_filter [("cache:user:k", 3), ("cache:other:k", 4)]
    "user" (by decide)

/-- One scan-loop step never takes the partition counter past the budget:
it increments only under the loop guard scanned < maxPartitions. -/
theorem execStep_scanned_le {R : Type} (store : List ScanParam → List R) (createdAtOf : R → Nat)
    (filterFn : Option (List R → List R)) (kind : String)
    (userId noteId channelId : Option String)
    (psLimit queryLimit foundLimit maxPartitions : Nat) (sinceDate : Option Nat)
    (st : ExecState R) (h : st.scanned ≤ maxPartitions) :
    (execStep store createdAtOf filterFn kind userId noteId channelId
      psLimit queryLimit foundLimit maxPartitions sinceDate st).2.scanned ≤ maxPartitions := by
  unfold execStep
  split
  case isFalse => exact h
  case isTrue hg =>
    have hlt : st.scanned < maxPartitions := hg.2
    split
    case h_1 => exact h
    case h_2 p0 u1 heq =>
      dsimp only
      repeat' split
      all_goals dsimp only
      all_goals omega

/-- The scan loop keeps the partition counter at or below the budget. -/
theorem execLoop_scanned_le {R : Type} (store : List ScanParam → List R) (createdAtOf : R → Nat)
    (filterFn : Option (List R → List R)) (kind : String)
    (userId noteId channelId : Option String)
    (psLimit queryLimit foundLimit maxPartitions : Nat) (sinceDate : Option Nat)
    (fuel : Nat) :
    ∀ st : ExecState R, st.scanned ≤ maxPartitions →
      (execLoop store createdAtOf filterFn kind userId noteId channelId
        psLimit queryLimit foundLimit maxPartitions sinceDate fuel st).scanned ≤ maxPartitions := by
  induction fuel with
  | zero => intro st h; exact h
  | succ f ih =>
    intro st h
    unfold execLoop
    rcases hstep : execStep store createdAtOf filterFn kind userId noteId channelId
        psLimit queryLimit foundLimit maxPartitions sinceDate st with ⟨cont, st2⟩
    have h2 : st2.scanned ≤ maxPartitions := by
      have hs := execStep_scanned_le store createdAtOf filterFn kind userId noteId channelId
        psLimit queryLimit foundLimit maxPartitions sinceDate st h
      rwa [hstep] at hs
    cases cont
    · exact h2
    · exact ih st2 h2

/-- C4: the partition-exhaustion step of execPaginationQuery runs at most
maxPartitions times — any successful run ends with scanned ≤ maxPartitions
— and in the sparse scenario (maxPartitions = 2, the two most recent day
partitions empty, no sinceDate) the request returns an empty result after
scanning exactly 2 partitions, even though the day -3 partition holds 5
matching rows. -/
theorem execPaginationQuery_partition_budget :
    (∀ (R : Type) (store : List ScanParam → List R) (createdAtOf : R → Nat)
        (filterFn : Option (List R → List R)) (tpl : PreparedTemplates) (tsOf : String → Nat)
        (now : Nat) (kind : String) (ps : PaginationPs) (userId : Option String)
        (queryLimit maxPartitions fuel : Nat) (st : ExecState R),
        execPaginationQuery store createdAtOf filterFn tpl tsOf now kind ps userId
            queryLimit maxPartitions fuel = Except.ok st →
        st.scanned ≤ maxPartitions)
    ∧ (execPaginationQuery sparseStore (fun n => n.createdAt) none tpl0 tsZero nowSparse
        "local" emptyPs none 100 2 10).map (fun st => (st.found, st.scanned))
        = Except.ok ([], 2)
    ∧ (sparseStore [ScanParam.date (19997 * 86400000 + 86399999),
        ScanParam.date (19997 * 86400000 + 86399999), ScanParam.num 100]).length = 5 := by
  refine ⟨?_, by rfl, by decide⟩
  intro R store createdAtOf filterFn tpl tsOf now kind ps userId queryLimit maxPartitions fuel st h
  unfold execPaginationQuery at h
  split at h
  · exact absurd h (by simp)
  · split at h
    · exact absurd h (by simp)
    · split at h
      · exact absurd h (by simp)
      · split at h
        · exact absurd h (by simp)
        · cases h
          exact execLoop_scanned_le store createdAtOf filterFn kind userId ps.noteId
            ps.channelId ps.limit queryLimit _ maxPartitions _ fuel _ (Nat.zero_le _)

/-- Witness for the C4 budget bound at the sparse scenario run. -/
theorem execPaginationQuery_partition_budget_witness :
    ∃ st : ExecState ScyllaNote,
      execPaginationQuery sparseStore (fun n => n.createdAt) none tpl0 tsZero nowSparse
          "local" emptyPs none 100 2 10 = Except.ok st ∧ st.scanned ≤ 2 :=
  ⟨_, rfl, execPaginationQuery_partition_budget.1 ScyllaNote sparseStore (fun n => n.createdAt)
    none tpl0 tsZero nowSparse "local" emptyPs none 100 2 10 _ rfl⟩

/-- One scan-loop step appends at most the fixed fetch limit of the feed
kind to the trace of issued fetch limits. -/
theorem execStep_fetchLimits_mem {R : Type} (store : List ScanParam → List R)
    (createdAtOf : R → Nat) (filterFn : Option (List R → List R)) (kind : String)
    (userId noteId channelId : Option String)
    (psLimit queryLimit foundLimit maxPartitions : Nat) (sinceDate : Option Nat)
    (st : ExecState R) :
    ∀ x ∈ (execStep store createdAtOf filterFn kind userId noteId channelId
        psLimit queryLimit foundLimit maxPartitions sinceDate st).2.fetchLimits,
      x ∈ st.fetchLimits ∨ x = (if kind = "list" then min psLimit queryLimit else queryLimit) := by
  intro x
  unfold execStep
  split
  case isFalse => exact fun hx => Or.inl hx
  case isTrue hg =>
    split
    case h_1 => exact fun hx => Or.inl hx
    case h_2 p0 u1 heq =>
      dsimp only
      repeat' split
      all_goals intro hx
      all_goals first
        | exact Or.inl hx
        | (rcases List.mem_append.mp hx with hmem | hmem
           · exact Or.inl hmem
           · exact Or.inr (by simpa using hmem))

/-- The scan loop only ever issues the fixed per-kind fetch limit. -/
theorem execLoop_fetchLimits_const {R : Type} (store : List ScanParam → List R)
    (createdAtOf : R → Nat) (filterFn : Option (List R → List R)) (kind : String)
    (userId noteId channelId : Option String)
    (psLimit queryLimit foundLimit maxPartitions : Nat) (sinceDate : Option Nat)
    (fuel : Nat) :
    ∀ st : ExecState R,
      (∀ x ∈ st.fetchLimits, x = (if kind = "list" then min psLimit queryLimit else queryLimit)) →
      ∀ x ∈ (execLoop store createdAtOf filterFn kind userId noteId channelId
          psLimit queryLimit foundLimit maxPartitions sinceDate fuel st).fetchLimits,
        x = (if kind = "list" then min psLimit queryLimit else queryLimit) := by
  induction fuel with
  | zero => intro st h; exact h
  | succ f ih =>
    intro st h
    unfold execLoop
    rcases hstep : execStep store createdAtOf filterFn kind userId noteId channelId
        psLimit queryLimit foundLimit maxPartitions sinceDate st with ⟨cont, st2⟩
    have h2 : ∀ x ∈ st2.fetchLimits,
        x = (if kind = "list" then min psLimit queryLimit else queryLimit) := by
      intro x hx
      have hs := execStep_fetchLimits_mem store createdAtOf filterFn kind userId noteId channelId
        psLimit queryLimit foundLimit maxPartitions sinceDate st x
      rw [hstep] at hs
      rcases hs hx with hmem | heq
      · exact h x hmem
      · exact heq
    cases cont
    · exact h2
    · exact ih st2 h2

/-- C7 counterexample: for the list feed kind with ps.limit = 5 and
queryLimit = 100, the single scan issued carries fetch limit 5, not the
configured query limit — the per-request fetch limit does depend on the
caller's requested count for this kind. -/
theorem execPaginationQuery_list_fetchLimit_depends_on_limit :
    (execPaginationQuery emptyStore (fun n => n.createdAt) none tpl0 tsZero nowSparse "list"
        { emptyPs with limit := 5, userIds := some ["a"] } none 100 1 10).map
        (fun st => st.fetchLimits) = Except.ok [5]
    ∧ (5 : Nat) ≠ 100 := ⟨by rfl, by decide⟩

/-- C7 (amended): every scan a successful execPaginationQuery run issues
uses the same fetch limit — the configured query limit for every feed kind
except list, and min(ps.limit, queryLimit) for the list kind. -/
theorem execPaginationQuery_fetchLimit_characterization :
    ∀ (R : Type) (store : List ScanParam → List R) (createdAtOf : R → Nat)
      (filterFn : Option (List R → List R)) (tpl : PreparedTemplates) (tsOf : String → Nat)
      (now : Nat) (kind : String) (ps : PaginationPs) (userId : Option String)
      (queryLimit maxPartitions fuel : Nat) (st : ExecState R),
      execPaginationQuery store createdAtOf filterFn tpl tsOf now kind ps userId
          queryLimit maxPartitions fuel = Except.ok st →
      ∀ fl ∈ st.fetchLimits,
        fl = (if kind = "list" then min ps.limit queryLimit else queryLimit) := by
  intro R store createdAtOf filterFn tpl tsOf now kind ps userId queryLimit maxPartitions fuel st h
  unfold execPaginationQuery at h
  split at h
  · exact absurd h (by simp)
  · split at h
    · exact absurd h (by simp)
    · split at h
      · exact absurd h (by simp)
      · split at h
        · exact absurd h (by simp)
        · cases h
          exact execLoop_fetchLimits_const store createdAtOf filterFn kind userId ps.noteId
            ps.channelId ps.limit queryLimit _ maxPartitions _ fuel _ (by simp)

/-- Witness for the amended C7 statement: the sparse local run issued fetch
limit 100, which the characterization pins to the configured query limit. -/
theorem execPaginationQuery_fetchLimit_characterization_witness :
    (100 : Nat) = (if ("local" : String) = "list" then min emptyPs.limit 100 else 100) :=
  execPaginationQuery_fetchLimit_characterization ScyllaNote sparseStore (fun n => n.createdAt)
    none tpl0 tsZero nowSparse "local" emptyPs none 100 2 10 _ rfl 100 (by decide)

/-- The parameter-building chain never grows the userIds array: it passes
it through unchanged except for the list branch, which pops its last id. -/
theorem buildScanParams_userIds_le (kind : String) (userId noteId channelId : Option String)
    (userIds : Option (List String)) (untilD : Nat) (p : List ScanParam)
    (u1 : Option (List String))
    (h : buildScanParams kind userId noteId channelId userIds untilD = some (p, u1)) :
    optListLen u1 ≤ optListLen userIds := by
  unfold buildScanParams at h
  repeat' split at h
  all_goals cases h
  all_goals simp_all [optListLen, List.length_dropLast]

/-- One scan-loop step never grows the userIds array. -/
theorem execStep_userIds_le {R : Type} (store : List ScanParam → List R) (createdAtOf : R → Nat)
    (filterFn : Option (List R → List R)) (kind : String)
    (userId noteId channelId : Option String)
    (psLimit queryLimit foundLimit maxPartitions : Nat) (sinceDate : Option Nat)
    (st : ExecState R) :
    optListLen (execStep store createdAtOf filterFn kind userId noteId channelId
      psLimit queryLimit foundLimit maxPartitions sinceDate st).2.userIds ≤
      optListLen st.userIds := by
  unfold execStep
  split
  case isFalse => exact Nat.le_refl _
  case isTrue hg =>
    split
    case h_1 => exact Nat.le_refl _
    case h_2 p0 u1 heq =>
      have hu := buildScanParams_userIds_le kind userId noteId channelId st.userIds
        st.untilDate p0 u1 heq
      dsimp only
      repeat' split
      all_goals exact hu

/-- The scan loop never grows the userIds array. -/
theorem execLoop_userIds_le {R : Type} (store : List ScanParam → List R) (createdAtOf : R → Nat)
    (filterFn : Option (List R → List R)) (kind : String)
    (userId noteId channelId : Option String)
    (psLimit queryLimit foundLimit maxPartitions : Nat) (sinceDate : Option Nat)
    (fuel : Nat) :
    ∀ st : ExecState R,
      optListLen (execLoop store createdAtOf filterFn kind userId noteId channelId
        psLimit queryLimit foundLimit maxPartitions sinceDate fuel st).userIds ≤
        optListLen st.userIds := by
  induction fuel with
  | zero => intro st; exact Nat.le_refl _
  | succ f ih =>
    intro st
    unfold execLoop
    rcases hstep : execStep store createdAtOf filterFn kind userId noteId channelId
        psLimit queryLimit foundLimit maxPartitions sinceDate st with ⟨cont, st2⟩
    have h2 : optListLen st2.userIds ≤ optListLen st.userIds := by
      have hs := execStep_userIds_le store createdAtOf filterFn kind userId noteId channelId
        psLimit queryLimit foundLimit maxPartitions sinceDate st
      rwa [hstep] at hs
    cases cont
    · exact h2
    · exact Nat.le_trans (ih st2) h2

/-- Under the loop guard, a list-kind step pops the last id off a nonempty
userIds array: the new state carries userIds.dropLast. -/
theorem execStep_list_pops {R : Type} (store : List ScanParam → List R) (createdAtOf : R → Nat)
    (filterFn : Option (List R → List R)) (userId noteId channelId : Option String)
    (psLimit queryLimit foundLimit maxPartitions : Nat) (sinceDate : Option Nat)
    (st : ExecState R) (l : List String) (hst : st.userIds = some l) (hl : l ≠ [])
    (hg : st.found.length < foundLimit ∧ st.scanned < maxPartitions) :
    (execStep store createdAtOf filterFn "list" userId noteId channelId
      psLimit queryLimit foundLimit maxPartitions sinceDate st).2.userIds = some l.dropLast := by
  obtain ⟨a, ha⟩ : ∃ a, l.getLast? = some a := by
    cases hgl : l.getLast? with
    | none => exact absurd (List.getLast?_eq_none_iff.mp hgl) hl
    | some a => exact ⟨a, rfl⟩
  have hbuild : buildScanParams "list" userId noteId channelId st.userIds st.untilDate =
      some ([ScanParam.str a, ScanParam.date st.untilDate], some l.dropLast) := by
    rw [hst]
    unfold buildScanParams
    simp [ha]
  unfold execStep
  rw [if_pos hg, hbuild]
  dsimp only
  repeat' split
  all_goals rfl

/-- C10: for the list feed kind, execPaginationQuery destructively consumes
the caller-supplied ps.userIds array — each iteration pops one target id,
so a successful run returns with strictly fewer ids in the array than the
caller passed in: the request descriptor is not left unchanged. -/
theorem execPaginationQuery_list_mutates_userIds :
    ∀ (R : Type) (store : List ScanParam → List R) (createdAtOf : R → Nat)
      (filterFn : Option (List R → List R)) (tpl : PreparedTemplates) (tsOf : String → Nat)
      (now : Nat) (ps : PaginationPs) (userId : Option String)
      (queryLimit maxPartitions fuel : Nat) (l : List String),
      ps.userIds = some l → l ≠ [] → 1 ≤ ps.limit → 1 ≤ maxPartitions → 1 ≤ fuel →
      ∃ st : ExecState R,
        execPaginationQuery store createdAtOf filterFn tpl tsOf now "list" ps userId
            queryLimit maxPartitions fuel = Except.ok st
        ∧ optListLen st.userIds < l.length := by
  intro R store createdAtOf filterFn tpl tsOf now ps userId queryLimit maxPartitions fuel l
    hl hne hlim hmax hfuel
  have hlpos : 0 < l.length := List.length_pos.mpr hne
  unfold execPaginationQuery
  rw [if_neg (by simp), if_neg (by simp), if_neg (by simp),
    if_neg (by simp [hl, List.isEmpty_iff, hne])]
  refine ⟨_, rfl, ?_⟩
  cases fuel with
  | zero => exact absurd hfuel (by simp)
  | succ f =>
    unfold execLoop
    rcases hstep : execStep store createdAtOf filterFn "list" userId ps.noteId ps.channelId
        ps.limit queryLimit
        (if "list" = "list" ∧ ps.userIds.isSome then ps.limit * (ps.userIds.getD []).length
          else ps.limit)
        maxPartitions (preparePaginationQuery tpl tsOf now "list" ps).sinceDate
        { untilDate := (preparePaginationQuery tpl tsOf now "list" ps).untilDate, scanned := 0,
          found := [], userIds := ps.userIds, fetchLimits := [] } with ⟨cont, st2⟩
    have hpop : st2.userIds = some l.dropLast := by
      have hs := execStep_list_pops store createdAtOf filterFn userId ps.noteId ps.channelId
        ps.limit queryLimit
        (if "list" = "list" ∧ ps.userIds.isSome then ps.limit * (ps.userIds.getD []).length
          else ps.limit)
        maxPartitions (preparePaginationQuery tpl tsOf now "list" ps).sinceDate
        { untilDate := (preparePaginationQuery tpl tsOf now "list" ps).untilDate, scanned := 0,
          found := [], userIds := ps.userIds, fetchLimits := [] }
        l hl hne
        (by
          constructor
          · simp only [hl]
            simp [Nat.mul_pos (Nat.lt_of_lt_of_le Nat.zero_lt_one hlim) hlpos]
          · exact Nat.lt_of_lt_of_le Nat.zero_lt_one hmax)
      rw [hstep] at hs
      exact hs
    have hlen2 : optListLen st2.userIds = l.length - 1 := by
      rw [hpop]; simp [optListLen, List.length_dropLast]
    cases cont
    · simpa [hlen2] using Nat.sub_lt hlpos Nat.zero_lt_one
    · have hmono := execLoop_userIds_le store createdAtOf filterFn "list" userId ps.noteId
        ps.channelId ps.limit queryLimit
        (if "list" = "list" ∧ ps.userIds.isSome then ps.limit * (ps.userIds.getD []).length
          else ps.limit)
        maxPartitions (preparePaginationQuery tpl tsOf now "list" ps).sinceDate f st2
      show optListLen (execLoop store createdAtOf filterFn "list" userId ps.noteId ps.channelId
        ps.limit queryLimit
        (if "list" = "list" ∧ ps.userIds.isSome then ps.limit * (ps.userIds.getD []).length
          else ps.limit)
        maxPartitions (preparePaginationQuery tpl tsOf now "list" ps).sinceDate f st2).userIds
        < l.length
      omega

/-- Witness for C10 at a concrete list request with one target id. -/
theorem execPaginationQuery_list_mutates_userIds_witness :
    ∃ st : ExecState ScyllaNote,
      execPaginationQuery emptyStore (fun n => n.createdAt) none tpl0 tsZero nowSparse "list"
          { emptyPs with limit := 5, userIds := some ["a"] } none 100 1 10 = Except.ok st
      ∧ optListLen st.userIds < (["a"] : List String).length :=
  execPaginationQuery_list_mutates_userIds ScyllaNote emptyStore (fun n => n.createdAt) none
    tpl0 tsZero nowSparse { emptyPs with limit := 5, userIds := some ["a"] } none 100 1 10 ["a"]
    rfl (by simp) (by decide) (by decide) (by decide)

/-- C5: the home-timeline endpoint returns at most ps.limit rows, on the
partitioned-store path (final slice to ps.limit) as well as on the
relational fallback path (final truncation), for every oracle behaviour
and every limit in the admitted 1..100 range. -/
theorem homeTimeline_length_le_limit :
    ∀ (β ρ : Type) (execOracle : PaginationPs → List ScyllaNote)
      (packManyFn : List ScyllaNote → List β) (queryFn : Nat → Nat → List ρ)
      (packManyRel : List ρ → List β) (fuelA fuelB : Nat) (ps : PaginationPs),
      1 ≤ ps.limit → ps.limit ≤ 100 →
      (scyllaHomeTimeline execOracle packManyFn fuelA ps).length ≤ ps.limit
      ∧ (relationalHomeTimeline queryFn packManyRel fuelB ps.limit).length ≤ ps.limit := by
  intro β ρ execOracle packManyFn queryFn packManyRel fuelA fuelB ps _ _
  constructor
  · unfold scyllaHomeTimeline
    rw [List.length_take]
    exact min_le_left _ _
  · unfold relationalHomeTimeline
    dsimp only
    split
    case isTrue => rw [List.length_take]; exact min_le_left _ _
    case isFalse h => omega

/-- Witness for C5 at concrete oracles and limit 10. -/
theorem homeTimeline_length_le_limit_witness :
    (scyllaHomeTimeline (fun _ => []) (fun ns => ns) 3 emptyPs).length ≤ emptyPs.limit
    ∧ (relationalHomeTimeline (fun _ _ => ([] : List ScyllaNote)) (fun ns => ns) 3
        emptyPs.limit).length ≤ emptyPs.limit :=
  homeTimeline_length_le_limit ScyllaNote ScyllaNote (fun _ => []) (fun ns => ns)
    (fun _ _ => []) (fun ns => ns) 3 3 emptyPs (by decide) (by decide)

/-- Joining the query parts with single spaces, the assembled text is the
template, the upper-bound clause, the optional lower-bound clause and the
limit clause. -/
theorem queryParts_join (t : String) (sinceSome : Bool) :
    (if sinceSome then (t ++ " " ++ "AND \"createdAt\" < ?") ++ " " ++ "AND \"createdAt\" > ?"
      else t ++ " " ++ "AND \"createdAt\" < ?") ++ " " ++ "LIMIT ?" =
      t ++ " AND \"createdAt\" < ?" ++
        (if sinceSome then " AND \"createdAt\" > ? LIMIT ?" else " LIMIT ?") := by
  cases sinceSome <;> simp [String.append_assoc]

/-- C6: preparePaginationQuery resolves the until bound as the decoded
untilId timestamp (now when absent) replaced by an earlier explicit
untilDate, resolves the since bound as the later of the decoded sinceId
timestamp and the explicit sinceDate (absent when neither is given), and
assembles the query as the kind's template, an unconditional upper-bound
clause, a lower-bound clause exactly when a since bound was resolved, and
a trailing LIMIT clause.  The hypotheses exclude the JS-falsy inputs
(empty-string ids, zero timestamps), which the source treats as absent. -/
theorem preparePaginationQuery_resolves_bounds :
    ∀ (tpl : PreparedTemplates) (tsOf : String → Nat) (now : Nat) (kind : String)
      (ps : PaginationPs),
      ps.untilId ≠ some "" → ps.untilDate ≠ some 0 →
      ps.sinceId ≠ some "" → ps.sinceDate ≠ some 0 →
      (preparePaginationQuery tpl tsOf now kind ps).untilDate =
          resolvedUntilSpec tsOf now ps.untilId ps.untilDate
      ∧ (preparePaginationQuery tpl tsOf now kind ps).sinceDate =
          resolvedSinceSpec tsOf ps.sinceId ps.sinceDate
      ∧ (preparePaginationQuery tpl tsOf now kind ps).query =
          selectTemplate tpl kind ++ " AND \"createdAt\" < ?" ++
            (if (preparePaginationQuery tpl tsOf now kind ps).sinceDate.isSome then
              " AND \"createdAt\" > ? LIMIT ?" else " LIMIT ?") := by
  intro tpl tsOf now kind ps hui0 hud0 hsi0 hsd0
  refine ⟨?_, ?_, ?_⟩
  · rcases hui : ps.untilId with _ | i <;> rcases hud : ps.untilDate with _ | d <;>
      simp_all [preparePaginationQuery, resolvedUntilSpec]
  · rcases hsi : ps.sinceId with _ | i <;> rcases hsd : ps.sinceDate with _ | d <;>
      simp_all [preparePaginationQuery, resolvedSinceSpec] <;>
      (try (split <;> simp <;> omega))
  · have hq := queryParts_join (selectTemplate tpl kind)
    rcases hsi : ps.sinceId with _ | i <;> rcases hsd : ps.sinceDate with _ | d
    · simpa [preparePaginationQuery, hsi, hsd] using hq false
    · have hd : d ≠ 0 := by simp_all
      simpa [preparePaginationQuery, hsi, hsd, hd] using hq true
    · have hi : i ≠ "" := by simp_all
      simpa [preparePaginationQuery, hsi, hsd, hi] using hq true
    · have hd : d ≠ 0 := by simp_all
      have hi : i ≠ "" := by simp_all
      by_cases hgt : d > tsOf i
      · simpa [preparePaginationQuery, hsi, hsd, hi, hd, hgt] using hq true
      · simpa [preparePaginationQuery, hsi, hsd, hi, hd, hgt] using hq true

/-- Witness for C6 at concrete bounds: untilId decoding to 500, an earlier
untilDate 300, no sinceId, an explicit sinceDate 100. -/
theorem preparePaginationQuery_resolves_bounds_witness :
    (preparePaginationQuery tpl0 (fun _ => 500) 1000 "home" boundsPs).untilDate
        = resolvedUntilSpec (fun _ => 500) 1000 boundsPs.untilId boundsPs.untilDate
    ∧ (preparePaginationQuery tpl0 (fun _ => 500) 1000 "home" boundsPs).sinceDate
        = resolvedSinceSpec (fun _ => 500) boundsPs.sinceId boundsPs.sinceDate
    ∧ (preparePaginationQuery tpl0 (fun _ => 500) 1000 "home" boundsPs).query
        = selectTemplate tpl0 "home" ++ " AND \"createdAt\" < ?" ++
            (if (preparePaginationQuery tpl0 (fun _ => 500) 1000 "home"
                boundsPs).sinceDate.isSome then
              " AND \"createdAt\" > ? LIMIT ?" else " LIMIT ?") :=
  preparePaginationQuery_resolves_bounds tpl0 (fun _ => 500) 1000 "home" boundsPs
    (by decide) (by decide) (by decide) (by decide)

end Firefish
